import Mathlib

/-!
Verification of the ConwayBevy simulation core (src/src/main.rs).

The program is a Bevy app running a team-variant Game of Life on a 32×32
tile map.  Each tile carries a `Cell(usize, usize)` component holding
`(team, new team)` — the current state and the pending next-generation
state.  `update_map` advances the simulation on a timer, `mouse_input`
mutates cells on click, and `keyboard_input` toggles pause.

We embed the per-cell logic directly from the source: the team-vote fold
(main.rs lines 153-167), the transition rule (lines 177-181), the commit
assignments (lines 125-126), the tick/reset scheduler (lines 108-112,
modelling bevy's `Stopwatch` as an elapsed-time/paused pair), the click
mutation (lines 196-229) and the pause toggle (lines 233-240).

Two parts of the program are not well defined in this revision of the
source and are modelled from the spec, as flagged in their doc comments:
the neighbor-position computation (delegated to the external
`bevy_ecs_tilemap` helper, whose source is not in this repository), and
the iteration domain of the two `update_map` loops (the loop body reads
coordinates `x`, `y` that are not defined in scope in this revision).
-/

/-- Grid dimensions: `MAP_SIZE = (32, 32)` (main.rs line 7). -/
abbrev mapSize : Nat := 32

/-- `CELL_SIZE: f32 = 16.0` (main.rs line 8), as an exact rational. -/
def cellSize : ℚ := 16

/-- The `TEAM_COLORS` palette (main.rs lines 9-14): index 0 = empty
(white), 1 = neither/neutral (yellow-green), 2 = team 1 (blue),
3 = team 2 (orange). -/
def teamColors : List String := ["white", "yellow_green", "blue", "orange"]

/-- `struct Cell(usize, usize)` — `(team, new team)` (main.rs lines 16-17).
`team` is the current state (`cell.0`), `newTeam` the pending
next-generation state (`cell.1`). -/
structure Cell where
  team : Nat
  newTeam : Nat
  deriving DecidableEq, Repr

/-- A tile position on the 32×32 map. -/
abbrev Pos : Type := Fin mapSize × Fin mapSize

/-- The grid: one `Cell` per position (the tile map is fully populated by
`startup`, main.rs lines 65-81). -/
abbrev Grid : Type := Pos → Cell

/-- The grid after `startup`: every tile gets `Cell(0, 0)`
(main.rs line 76). -/
def initGrid : Grid := fun _ => ⟨0, 0⟩

/-- Modelled from the spec: the neighbor offsets.  The source delegates to
`Neighbors::get_square_neighboring_positions(tile_pos, map_size, true)`
from the external `bevy_ecs_tilemap` crate (main.rs line 132), whose
source is not part of this repository; the spec prescribes the 8-connected
square neighborhood offsets in a fixed order. -/
def neighborOffsets : List (Int × Int) :=
  [(-1, -1), (-1, 0), (-1, 1), (0, -1), (0, 1), (1, -1), (1, 0), (1, 1)]

/-- Modelled from the spec: toroidal wraparound of one coordinate,
`(x + d) mod mapSize`.  The wrapping behavior lives in the external
`bevy_ecs_tilemap` helper, not in src; the spec prescribes
`nx = (x + dx) mod width`. -/
def wrapIdx (x : Fin mapSize) (d : Int) : Fin mapSize :=
  ⟨(((x : Nat) + d) % (mapSize : Int)).toNat, by
    have h1 : 0 ≤ ((x : Nat) + d) % (mapSize : Int) :=
      Int.emod_nonneg _ (by norm_num [mapSize])
    have h2 : ((x : Nat) + d) % (mapSize : Int) < (mapSize : Int) :=
      Int.emod_lt_of_pos _ (by norm_num [mapSize])
    omega⟩

/-- Modelled from the spec: the 8 neighbor positions of a cell, each
offset wrapped toroidally. -/
def neighborPositions (p : Pos) : List Pos :=
  neighborOffsets.map fun d => (wrapIdx p.1 d.1, wrapIdx p.2 d.2)

/-- The `current` states of the 8 neighbors, in enumeration order
(main.rs lines 136-151 read `cell.0` of each neighbor). -/
def neighborStates (g : Grid) (p : Pos) : List Nat :=
  (neighborPositions p).map fun q => (g q).team

/-- The non-empty neighbor states, in order: the source filters neighbors
with `cell.0 != 0` (main.rs lines 138-144). -/
def aliveList (g : Grid) (p : Pos) : List Nat :=
  (neighborStates g p).filter fun t => t ≠ 0

/-- One iteration of the team-vote loop body (main.rs lines 159-166):
if `team == 0`, take the neighbor's team; else if the neighbor's team
differs, set `team = 1` (neither); else keep `team`. -/
def voteStep (team n : Nat) : Nat :=
  if team = 0 then n else if team ≠ n then 1 else team

/-- The neighbor scan (main.rs lines 153-169): fold over the non-empty
neighbors, accumulating `(team, count)`; `count` is incremented once per
non-empty neighbor. -/
def teamCountFold (l : List Nat) : Nat × Nat :=
  l.foldl (fun tc n => (voteStep tc.1 n, tc.2 + 1)) (0, 0)

/-- The resolved team vote for a cell. -/
def teamVote (g : Grid) (p : Pos) : Nat :=
  (teamCountFold (aliveList g p)).1

/-- The count of non-empty neighbors for a cell. -/
def aliveCount (g : Grid) (p : Pos) : Nat :=
  (teamCountFold (aliveList g p)).2

/-- The pending value written by the evaluation loop (main.rs lines
177-181): `if cell.0 != 0 && neighbors == 2 || neighbors == 3
{ cell.1 = team } else { cell.1 = 0 }` (Rust `&&` binds tighter than
`||`). -/
def evalCell (g : Grid) (p : Pos) : Nat :=
  if ((g p).team ≠ 0 ∧ aliveCount g p = 2) ∨ aliveCount g p = 3 then
    teamVote g p
  else 0

/-- The commit assignments for one cell (main.rs lines 125-126):
`cell.0 = cell.1; cell.1 = 0;`. -/
def commitCell (c : Cell) : Cell := ⟨c.newTeam, 0⟩

/-- The commit loop applied to every cell.  Modelled from the spec as far
as the iteration domain goes: this revision of the source iterates a
`Changed<Cell>` query (main.rs line 117); the spec prescribes the commit
for every cell (see `stepChanged` for the source's restricted variant). -/
def commitPhase (g : Grid) : Grid := fun p => commitCell (g p)

/-- The evaluation loop applied to every cell, writing only `pending`.
Modelled from the spec as far as the iteration domain goes: this revision
iterates a `Changed<Cell>` query and reads loop coordinates `x`, `y` that
are not defined in scope (main.rs lines 130-131); the spec prescribes
evaluating every cell. -/
def evalPhase (g : Grid) : Grid :=
  fun p => ⟨(g p).team, evalCell g p⟩

/-- One full step of `update_map` (main.rs lines 114-182): commit phase
over the whole grid, then evaluation phase over the whole grid. -/
def step (g : Grid) : Grid := evalPhase (commitPhase g)

/-- The commit loop as this revision of the source literally has it:
only the cells matched by the `Changed<Cell>` query, given here as the
predicate `changed`, are committed (main.rs line 117). -/
def commitChanged (changed : Pos → Bool) (g : Grid) : Grid :=
  fun p => if changed p then commitCell (g p) else g p

/-- The step as this revision of the source literally has it: both loops
range only over the cells matched by the `Changed<Cell>` query
(main.rs lines 117 and 130). -/
def stepChanged (changed : Pos → Bool) (g : Grid) : Grid :=
  fun p =>
    if changed p then
      ⟨(commitChanged changed g p).team, evalCell (commitChanged changed g) p⟩
    else commitChanged changed g p

/-- The evaluation loop run in an explicit cell order `l`: each visited
cell has its `pending` overwritten with `evalCell` of the grid as it
stands, reading only `team` fields. -/
def evalList (g : Grid) (l : List Pos) : Grid :=
  l.foldl (fun acc p =>
    fun q => if q = p then ⟨(acc p).team, evalCell acc p⟩ else acc q) g

/-- Bevy's `Stopwatch`, as used by `TickDuration(Stopwatch, f64)`
(main.rs lines 19-20): an elapsed-time accumulator and a paused flag.
Elapsed time is modelled as an exact rational. -/
structure Stopwatch where
  elapsed : ℚ
  paused : Bool
  deriving DecidableEq, Repr

/-- The stopwatch created by `Stopwatch::default()` (main.rs line 42):
zero elapsed time, running. -/
def Stopwatch.start : Stopwatch := ⟨0, false⟩

/-- `Stopwatch::tick(delta)`: adds the delta to the elapsed time unless
the stopwatch is paused (bevy semantics, used at main.rs line 108). -/
def Stopwatch.tick (s : Stopwatch) (dt : ℚ) : Stopwatch :=
  if s.paused then s else ⟨s.elapsed + dt, s.paused⟩

/-- `Stopwatch::reset()`: sets the elapsed time back to zero, leaving the
paused flag alone (used at main.rs line 112). -/
def Stopwatch.reset (s : Stopwatch) : Stopwatch := ⟨0, s.paused⟩

/-- The space-bar handler (main.rs lines 234-240): if paused, unpause;
else pause.  `pause`/`unpause` touch only the paused flag. -/
def Stopwatch.toggle (s : Stopwatch) : Stopwatch := ⟨s.elapsed, !s.paused⟩

/-- The timer head of `update_map` (main.rs lines 108-112): tick the
stopwatch by the frame delta; if the elapsed time is below the period
return without stepping, otherwise reset the stopwatch and run one step.
Returns the updated stopwatch and the number of steps run (0 or 1). -/
def advance (period : ℚ) (s : Stopwatch) (dt : ℚ) : Stopwatch × Nat :=
  let s1 := s.tick dt
  if s1.elapsed < period then (s1, 0) else (s1.reset, 1)

/-- The tick period installed at startup: `TickDuration(.., 0.1)`
(main.rs line 42). -/
def tickPeriod : ℚ := 1 / 10

/-- The pixel→cell coordinate map of `mouse_input` (main.rs lines
196-199): `(position / CELL_SIZE).round() as u32`, with round-half-up on
nonnegative window coordinates and `as u32` clamping negatives to 0. -/
def pixelToCell (v : ℚ) : Nat := (round (v / cellSize)).toNat

/-- The bounds check and coordinate production of `mouse_input`
(main.rs lines 196-205): the mapped coordinate, or none when it lies
outside the 32×32 map (`if x >= map_size.x || y >= map_size.y
{ return; }`). -/
def locate (px py : ℚ) : Option Pos :=
  if h : mapSize ≤ pixelToCell px ∨ mapSize ≤ pixelToCell py then none
  else some (⟨pixelToCell px, by omega⟩, ⟨pixelToCell py, by omega⟩)

/-- The new value written on click (main.rs lines 212-224): with LControl
held, toggle team 1 (`2 ⇄ 0`); otherwise toggle team 2 (`3 ⇄ 0`). -/
def clickValue (ctl : Bool) (cur : Nat) : Nat :=
  if ctl then (if cur = 2 then 0 else 2)
  else (if cur = 3 then 0 else 3)

/-- The cell mutation of `mouse_input` (main.rs lines 226-227):
`cell.0 = new_val; cell.1 = new_val;` — both fields are overwritten. -/
def setCell (g : Grid) (p : Pos) (v : Nat) : Grid :=
  fun q => if q = p then ⟨v, v⟩ else g q

/-- A full left-click of `mouse_input` (main.rs lines 192-230): locate
the cell under the cursor; if none, do nothing; else overwrite it with
the toggled value. -/
def mouseInput (ctl : Bool) (px py : ℚ) (g : Grid) : Grid :=
  match locate px py with
  | none => g
  | some p => setCell g p (clickValue ctl (g p).team)

/-- A cell's two fields are valid indices into the 4-color palette. -/
def validCell (c : Cell) : Prop :=
  c.team < teamColors.length ∧ c.newTeam < teamColors.length

instance : DecidablePred validCell := fun c => by
  unfold validCell; infer_instance

/-- Every cell of the grid is palette-valid. -/
def validGrid (g : Grid) : Prop := ∀ p, validCell (g p)

instance : DecidablePred validGrid := fun g => by
  unfold validGrid; infer_instance

/-! ### Helper lemmas -/

theorem teamColors_length : teamColors.length = 4 := rfl

theorem validGrid_initGrid : validGrid initGrid :=
  fun _ => show validCell ⟨0, 0⟩ by decide

theorem voteStep_lt_four {t n : Nat} (ht : t < 4) (hn : n < 4) :
    voteStep t n < 4 := by
  unfold voteStep
  split
  · exact hn
  · split <;> omega

theorem foldl_vote_fst_lt (l : List Nat) :
    ∀ t c, t < 4 → (∀ n ∈ l, n < 4) →
      (l.foldl (fun tc n => (voteStep tc.1 n, tc.2 + 1)) (t, c)).1 < 4 := by
  induction l with
  | nil => intro t c ht _; simpa using ht
  | cons a l ih =>
      intro t c ht h
      simp only [List.foldl_cons]
      exact ih _ _ (voteStep_lt_four ht (h a (by simp)))
        fun n hn => h n (by simp [hn])

theorem foldl_vote_snd (l : List Nat) :
    ∀ t c, (l.foldl (fun tc n => (voteStep tc.1 n, tc.2 + 1)) (t, c)).2 =
      c + l.length := by
  induction l with
  | nil => intro t c; simp
  | cons a l ih =>
      intro t c
      simp only [List.foldl_cons, ih, List.length_cons]
      omega

theorem teamCountFold_snd (l : List Nat) : (teamCountFold l).2 = l.length := by
  unfold teamCountFold
  rw [foldl_vote_snd l 0 0]
  omega

theorem foldl_vote_fst_one (l : List Nat) :
    ∀ r : Nat × Nat, r.1 = 1 →
      (l.foldl (fun tc n => (voteStep tc.1 n, tc.2 + 1)) r).1 = 1 := by
  induction l with
  | nil => intro r h; exact h
  | cons a l ih =>
      intro r h
      simp only [List.foldl_cons]
      refine ih _ ?_
      show voteStep r.1 a = 1
      rw [h]
      unfold voteStep
      split
      · omega
      · split <;> rfl

theorem teamCountFold_append_one (pre post : List Nat)
    (h : (teamCountFold pre).1 = 1) : (teamCountFold (pre ++ post)).1 = 1 := by
  unfold teamCountFold at *
  rw [List.foldl_append]
  exact foldl_vote_fst_one post _ h

theorem aliveList_mem_lt {g : Grid} (hg : validGrid g) (p : Pos) :
    ∀ n ∈ aliveList g p, n < 4 := by
  intro n hn
  have hmem : n ∈ neighborStates g p := List.mem_of_mem_filter hn
  simp only [neighborStates, List.mem_map] at hmem
  obtain ⟨q, _, rfl⟩ := hmem
  have := (hg q).1
  rwa [teamColors_length] at this

theorem teamVote_lt_four {g : Grid} (hg : validGrid g) (p : Pos) :
    teamVote g p < 4 :=
  foldl_vote_fst_lt _ 0 0 (by omega) (aliveList_mem_lt hg p)

theorem evalCell_lt_four {g : Grid} (hg : validGrid g) (p : Pos) :
    evalCell g p < 4 := by
  unfold evalCell
  split
  · exact teamVote_lt_four hg p
  · omega

theorem validGrid_commitPhase {g : Grid} (hg : validGrid g) :
    validGrid (commitPhase g) := by
  intro p
  refine ⟨(hg p).2, ?_⟩
  show (0 : Nat) < teamColors.length
  decide

theorem validGrid_step {g : Grid} (hg : validGrid g) : validGrid (step g) := by
  intro p
  refine ⟨(validGrid_commitPhase hg p).1, ?_⟩
  rw [teamColors_length]
  exact evalCell_lt_four (validGrid_commitPhase hg) p

theorem validGrid_commitChanged {g : Grid} (ch : Pos → Bool)
    (hg : validGrid g) : validGrid (commitChanged ch g) := by
  intro p
  show validCell (if ch p then commitCell (g p) else g p)
  split
  · exact ⟨(hg p).2, show (0 : Nat) < teamColors.length by decide⟩
  · exact hg p

theorem validGrid_stepChanged {g : Grid} (ch : Pos → Bool) (hg : validGrid g) :
    validGrid (stepChanged ch g) := by
  intro p
  show validCell (if ch p then
    (⟨(commitChanged ch g p).team, evalCell (commitChanged ch g) p⟩ : Cell)
    else commitChanged ch g p)
  split
  · refine ⟨(validGrid_commitChanged ch hg p).1, ?_⟩
    show evalCell (commitChanged ch g) p < teamColors.length
    rw [teamColors_length]
    exact evalCell_lt_four (validGrid_commitChanged ch hg) p
  · exact validGrid_commitChanged ch hg p

theorem clickValue_lt_four (ctl : Bool) (cur : Nat) : clickValue ctl cur < 4 := by
  unfold clickValue
  split <;> split <;> omega

theorem validGrid_setCell {g : Grid} (hg : validGrid g) (p : Pos) {v : Nat}
    (hv : v < 4) : validGrid (setCell g p v) := by
  intro q
  unfold setCell
  split
  · exact ⟨by rw [teamColors_length]; exact hv, by rw [teamColors_length]; exact hv⟩
  · exact hg q

theorem validGrid_mouseInput {g : Grid} (ctl : Bool) (px py : ℚ)
    (hg : validGrid g) : validGrid (mouseInput ctl px py g) := by
  unfold mouseInput
  cases locate px py with
  | none => exact hg
  | some p => exact validGrid_setCell hg p (clickValue_lt_four ctl _)

theorem wrapIdx_cast (x : Fin mapSize) (d : Int) :
    ((wrapIdx x d : Nat) : Int) = (((x : Nat) : Int) + d) % (mapSize : Int) := by
  unfold wrapIdx
  have h1 : 0 ≤ (((x : Nat) : Int) + d) % (mapSize : Int) :=
    Int.emod_nonneg _ (by norm_num)
  simp only
  omega

theorem wrapIdx_inj_small (x : Fin mapSize) {d e : Int}
    (hd : d.natAbs ≤ 1) (he : e.natAbs ≤ 1) (h : wrapIdx x d = wrapIdx x e) :
    d = e := by
  have hcast : ((wrapIdx x d : Nat) : Int) = ((wrapIdx x e : Nat) : Int) := by
    rw [h]
  rw [wrapIdx_cast, wrapIdx_cast] at hcast
  have hx : (x : Nat) < 32 := x.isLt
  simp only [mapSize] at hcast
  omega

theorem neighborOffsets_small :
    ∀ d ∈ neighborOffsets, d.1.natAbs ≤ 1 ∧ d.2.natAbs ≤ 1 := by decide

theorem neighborOffsets_nodup : neighborOffsets.Nodup := by decide

theorem neighborPositions_nodup (p : Pos) : (neighborPositions p).Nodup := by
  refine List.Nodup.map_on ?_ neighborOffsets_nodup
  intro d hd e he h
  obtain ⟨h1, h2⟩ := Prod.mk.injEq .. ▸ h
  have hd' := neighborOffsets_small d hd
  have he' := neighborOffsets_small e he
  exact Prod.ext (wrapIdx_inj_small p.1 hd'.1 he'.1 h1)
    (wrapIdx_inj_small p.2 hd'.2 he'.2 h2)

theorem wrapIdx_zero (x : Fin mapSize) : wrapIdx x 0 = x := by
  apply Fin.ext
  have h := wrapIdx_cast x 0
  have hx : (x : Nat) < 32 := x.isLt
  simp only [mapSize] at h
  omega

theorem self_not_mem_neighborPositions (p : Pos) :
    p ∉ neighborPositions p := by
  intro hmem
  simp only [neighborPositions, List.mem_map] at hmem
  obtain ⟨d, hd, hEq⟩ := hmem
  have hd' := neighborOffsets_small d hd
  have h1 : wrapIdx p.1 d.1 = p.1 := congrArg Prod.fst hEq
  have h2 : wrapIdx p.2 d.2 = p.2 := congrArg Prod.snd hEq
  have e1 : d.1 = 0 :=
    wrapIdx_inj_small p.1 hd'.1 (by decide) (h1.trans (wrapIdx_zero p.1).symm)
  have e2 : d.2 = 0 :=
    wrapIdx_inj_small p.2 hd'.2 (by decide) (h2.trans (wrapIdx_zero p.2).symm)
  have : d = ((0 : Int), (0 : Int)) := Prod.ext e1 e2
  rw [this] at hd
  exact absurd hd (by decide)

theorem neighborPositions_length (p : Pos) : (neighborPositions p).length = 8 := by
  simp [neighborPositions, neighborOffsets]

theorem neighborStates_congr {g h : Grid}
    (hteam : ∀ q, (g q).team = (h q).team) (p : Pos) :
    neighborStates g p = neighborStates h p := by
  unfold neighborStates
  exact List.map_congr_left fun q _ => hteam q

theorem evalCell_congr {g h : Grid}
    (hteam : ∀ q, (g q).team = (h q).team) (p : Pos) :
    evalCell g p = evalCell h p := by
  unfold evalCell aliveCount teamVote aliveList
  rw [neighborStates_congr hteam p, hteam p]

theorem evalList_team (g : Grid) (l : List Pos) :
    ∀ q, ((evalList g l) q).team = (g q).team := by
  induction l generalizing g with
  | nil => intro q; rfl
  | cons p l ih =>
      intro q
      set w : Grid := fun r =>
        if r = p then ⟨(g p).team, evalCell g p⟩ else g r with hwdef
      have hwteam : ∀ r, (w r).team = (g r).team := by
        intro r
        rw [hwdef]
        show (if r = p then
          (⟨(g p).team, evalCell g p⟩ : Cell) else g r).team = (g r).team
        by_cases hr : r = p
        · rw [if_pos hr, hr]
        · rw [if_neg hr]
      have hstep : evalList g (p :: l) q = evalList w l q := rfl
      rw [hstep, ih w q, hwteam q]

theorem evalList_eq (g : Grid) (l : List Pos) :
    ∀ q, (evalList g l) q =
      if q ∈ l then ⟨(g q).team, evalCell g q⟩ else g q := by
  induction l generalizing g with
  | nil => intro q; simp [evalList]
  | cons p l ih =>
      intro q
      set w : Grid := fun r =>
        if r = p then ⟨(g p).team, evalCell g p⟩ else g r with hwdef
      have hwp : w p = ⟨(g p).team, evalCell g p⟩ := by
        rw [hwdef]; exact if_pos rfl
      have hwval : ∀ r, r ≠ p → w r = g r := by
        intro r hr
        rw [hwdef]; exact if_neg hr
      have hwteam : ∀ r, (w r).team = (g r).team := by
        intro r
        by_cases hr : r = p
        · subst hr; rw [hwp]
        · rw [hwval r hr]
      have hstep : evalList g (p :: l) q = evalList w l q := rfl
      rw [hstep, ih w q]
      by_cases hql : q ∈ l
      · rw [if_pos hql, if_pos (List.mem_cons_of_mem p hql)]
        rw [hwteam q, evalCell_congr hwteam q]
      · rw [if_neg hql]
        by_cases hqp : q = p
        · subst hqp
          rw [if_pos (List.mem_cons_self q l), hwp]
        · rw [hwval q hqp,
            if_neg (by rw [List.mem_cons]; push_neg; exact ⟨hqp, hql⟩)]

theorem evalList_perm (g : Grid) {l1 l2 : List Pos} (h : l1.Perm l2) :
    evalList g l1 = evalList g l2 := by
  funext q
  rw [evalList_eq, evalList_eq]
  by_cases hq : q ∈ l1
  · rw [if_pos hq, if_pos (h.mem_iff.mp hq)]
  · rw [if_neg hq, if_neg (fun hc => hq (h.mem_iff.mpr hc))]

theorem locate_none {px py : ℚ}
    (h : mapSize ≤ pixelToCell px ∨ mapSize ≤ pixelToCell py) :
    locate px py = none := by
  unfold locate
  exact dif_pos h

theorem locate_some (px py : ℚ) (hx : pixelToCell px < mapSize)
    (hy : pixelToCell py < mapSize) :
    locate px py = some (⟨pixelToCell px, hx⟩, ⟨pixelToCell py, hy⟩) := by
  unfold locate
  exact dif_neg (by omega)

theorem mouseInput_of_locate_none (px py : ℚ) (ctl : Bool) (g : Grid)
    (h : locate px py = none) : mouseInput ctl px py g = g := by
  unfold mouseInput
  rw [h]

theorem mouseInput_of_locate_some (px py : ℚ) (ctl : Bool) (g : Grid)
    (p : Pos) (h : locate px py = some p) :
    mouseInput ctl px py g = setCell g p (clickValue ctl (g p).team) := by
  unfold mouseInput
  rw [h]

theorem pixelToCell_zero : pixelToCell 0 = 0 := by
  unfold pixelToCell cellSize
  norm_num

theorem pixelToCell_512 : pixelToCell 512 = 32 := by
  unfold pixelToCell cellSize
  rw [show ((512 : ℚ) / 16) = ((32 : ℤ) : ℚ) by norm_num, round_intCast]
  rfl

theorem locate_origin : locate 0 0 = some (0, 0) := by
  have hx : pixelToCell 0 < mapSize := by rw [pixelToCell_zero]; norm_num
  have hl := locate_some 0 0 hx hx
  have hp : (⟨pixelToCell 0, hx⟩ : Fin mapSize) = 0 := by
    apply Fin.ext
    show pixelToCell 0 = ((0 : Fin mapSize) : Nat)
    rw [pixelToCell_zero]
    rfl
  rw [hp] at hl
  exact hl

theorem advance_fires (p a dt : ℚ) (h : p ≤ a + dt) :
    advance p ⟨a, false⟩ dt = (⟨0, false⟩, 1) := by
  show (if a + dt < p then ((⟨a + dt, false⟩ : Stopwatch), 0)
    else ((⟨0, false⟩ : Stopwatch), 1)) = ((⟨0, false⟩ : Stopwatch), 1)
  rw [if_neg (not_lt.2 h)]

theorem toggle_toggle (s : Stopwatch) : s.toggle.toggle = s := by
  unfold Stopwatch.toggle
  rw [Bool.not_not]

/-! ### Claim theorems -/

/-- C1: the spec requires the commit phase and the evaluation phase of a
step to cover every cell of the grid.  The source's `update_map` instead
runs both loops only over the cells matched by its `Changed<Cell>` query
(and its evaluation loop reads loop coordinates that are not defined in
scope, so this revision does not compile).  This theorem evaluates the
restricted step at a failing input: with an empty change set a cell whose
pending value is team 2 is never committed (it keeps `Cell(0, 3)` and its
`current` stays 0), while the intended all-cells step commits it to 3;
when the change set covers every cell, the restricted step coincides with
the intended two-phase step. -/
theorem changed_query_skips_commit :
    ((stepChanged (fun _ => false) (fun _ => ⟨0, 3⟩)) (0, 0) = ⟨0, 3⟩) ∧
    ((step (fun _ => ⟨0, 3⟩)) (0, 0)).team = 3 ∧
    (∀ g : Grid, stepChanged (fun _ => true) g = step g) :=
  ⟨rfl, rfl, fun _ => funext fun _ => rfl⟩

/-- C2 (counterexample): the claim says `advance(0.25)` from an empty
accumulator with period 0.1 leaves `a + dt - p = 0.15` in the
accumulator.  The source calls `Stopwatch::reset()` (main.rs line 112),
so exactly one step fires but the accumulator is 0 afterwards, not
0.15. -/
theorem advance_residual_counterexample :
    (advance tickPeriod Stopwatch.start (1 / 4)).2 = 1 ∧
    (advance tickPeriod Stopwatch.start (1 / 4)).1.elapsed = 0 ∧
    (advance tickPeriod Stopwatch.start (1 / 4)).1.elapsed ≠
      Stopwatch.start.elapsed + 1 / 4 - tickPeriod := by
  have hs : Stopwatch.start = (⟨0, false⟩ : Stopwatch) := rfl
  have h := advance_fires tickPeriod 0 (1 / 4) (by norm_num [tickPeriod])
  rw [hs, h]
  refine ⟨rfl, rfl, ?_⟩
  show (0 : ℚ) ≠ 0 + 1 / 4 - tickPeriod
  norm_num [tickPeriod]

/-- C2 (amended): for every period `q` and every `advance(dt)` in the
Running state with accumulator `a` such that `a + dt ≥ q`, exactly one
step is invoked and the accumulator afterwards equals 0 — the stopwatch
is reset to zero, discarding the residual `a + dt - q`. -/
theorem advance_fires_and_resets (q a dt : ℚ) (h : q ≤ a + dt) :
    (advance q ⟨a, false⟩ dt).2 = 1 ∧
    (advance q ⟨a, false⟩ dt).1.elapsed = 0 := by
  rw [advance_fires q a dt h]
  exact ⟨rfl, rfl⟩

/-- C2 witness: with period 0.1 and an empty running accumulator,
`advance(0.25)` fires exactly one step and leaves 0. -/
theorem advance_fires_and_resets_witness :
    (advance tickPeriod ⟨0, false⟩ (1 / 4)).2 = 1 ∧
    (advance tickPeriod ⟨0, false⟩ (1 / 4)).1.elapsed = 0 :=
  advance_fires_and_resets tickPeriod 0 (1 / 4) (by norm_num [tickPeriod])

/-- C3: the neighborhood of every cell is the 8 fixed offsets, each
wrapped toroidally (`nx = (x + dx) mod width`, here both extents are 32),
so every cell — edge and corner cells included — has exactly 8 distinct
neighbors, none of which is the cell itself. -/
theorem toroidal_neighborhood (p : Pos) (x : Fin mapSize) (dx : Int) :
    neighborPositions p =
      neighborOffsets.map (fun d => (wrapIdx p.1 d.1, wrapIdx p.2 d.2)) ∧
    (neighborPositions p).length = 8 ∧
    (neighborPositions p).Nodup ∧
    p ∉ neighborPositions p ∧
    ((wrapIdx x dx : Nat) : Int) = (((x : Nat) : Int) + dx) % (mapSize : Int) :=
  ⟨rfl, neighborPositions_length p, neighborPositions_nodup p,
    self_not_mem_neighborPositions p, wrapIdx_cast x dx⟩

/-- C4: after a step, every cell's pending value is `team_vote` when
(`current ≠ Empty` and `alive_count = 2`) or `alive_count = 3`, and
`Empty` (0) otherwise; and the transition is independent of cell
position — two cells with the same current state and the same neighbor
states get the same pending value. -/
theorem team_rule_total (g : Grid) (p q : Pos) :
    ((step g) p).newTeam =
      (if (((commitPhase g) p).team ≠ 0 ∧ aliveCount (commitPhase g) p = 2)
          ∨ aliveCount (commitPhase g) p = 3
        then teamVote (commitPhase g) p else 0) ∧
    ((g p).team = (g q).team → neighborStates g p = neighborStates g q →
      evalCell g p = evalCell g q) := by
  constructor
  · rfl
  · intro h1 h2
    unfold evalCell aliveCount teamVote aliveList
    rw [h1, h2]

/-- C4 witness: two concrete cells of the startup grid with equal current
state and equal neighbor states evaluate identically. -/
theorem team_rule_total_witness :
    evalCell initGrid (0, 0) = evalCell initGrid (1, 1) :=
  (team_rule_total initGrid (0, 0) (1, 1)).2 rfl (by decide)

/-- C5: the neighbor scan visits all 8 offsets, so `alive_count` equals
exactly the number of non-empty neighbors; once the vote has been forced
to `Neutral` (1) it never reverts, whatever neighbors follow; and in the
source's encoding (`Team(1)` = 2, `Team(2)` = 3, `Neutral` = 1) the
non-empty neighbor sequence `[2, 2, 3]` resolves to `(Neutral, 3)` while
`[2, 2, 2]` resolves to `(Team(1), 3)`. -/
theorem team_vote_scan (pre post : List Nat) (g : Grid) (p : Pos) :
    (neighborStates g p).length = 8 ∧
    aliveCount g p = ((neighborStates g p).filter fun t => t ≠ 0).length ∧
    ((teamCountFold pre).1 = 1 → (teamCountFold (pre ++ post)).1 = 1) ∧
    teamCountFold [2, 2, 3] = (1, 3) ∧
    teamCountFold [2, 2, 2] = (2, 3) := by
  refine ⟨?_, ?_, teamCountFold_append_one pre post, by decide, by decide⟩
  · unfold neighborStates
    rw [List.length_map, neighborPositions_length]
  · show (teamCountFold (aliveList g p)).2 = _
    rw [teamCountFold_snd]
    rfl

/-- C5 witness: a vote already forced to `Neutral` by the prefix `[2, 3]`
stays `Neutral` after two further matching team-1 neighbors. -/
theorem team_vote_scan_witness : (teamCountFold ([2, 3] ++ [2, 2])).1 = 1 :=
  (team_vote_scan [2, 3] [2, 2] initGrid (0, 0)).2.2.1 (by decide)

/-- C6: the space-bar toggle flips only the paused flag: it leaves the
accumulator unchanged, a paused stopwatch ignores any tick however large,
and toggling twice restores the scheduler exactly, so the next `advance`
behaves as if `toggle` had never been called. -/
theorem toggle_pause_invariants (s : Stopwatch) (e q dt : ℚ) :
    (s.toggle).paused = !s.paused ∧
    (s.toggle).elapsed = s.elapsed ∧
    s.toggle.toggle = s ∧
    (Stopwatch.mk e true).tick dt = Stopwatch.mk e true ∧
    advance q (s.toggle.toggle) dt = advance q s dt :=
  ⟨rfl, rfl, toggle_toggle s, rfl, by rw [toggle_toggle s]⟩

/-- C7: a click whose mapped cell coordinate is out of bounds produces no
target (`locate` returns `none`, it is not an error) and leaves every
cell of the grid unchanged. -/
theorem oob_click_noop (px py : ℚ) (ctl : Bool) (g : Grid)
    (h : mapSize ≤ pixelToCell px ∨ mapSize ≤ pixelToCell py) :
    locate px py = none ∧ mouseInput ctl px py g = g :=
  ⟨locate_none h, mouseInput_of_locate_none px py ctl g (locate_none h)⟩

/-- C7 witness: pixel position (512, 0) maps to cell (32, 0), outside
the 32×32 grid; the click is a no-op on the startup grid. -/
theorem oob_click_noop_witness :
    locate 512 0 = none ∧ mouseInput false 512 0 initGrid = initGrid :=
  oob_click_noop 512 0 false initGrid (Or.inl (by simp [pixelToCell_512]))

/-- C8 (counterexample): the claim says the click mutation leaves the
cell's pending field untouched.  The source writes `cell.1 = new_val`
(main.rs line 227): clicking the origin cell of the startup grid sets its
pending field to 3, which differs from the untouched value 0. -/
theorem click_pending_counterexample :
    ((mouseInput false 0 0 initGrid) (0, 0)).newTeam = 3 ∧
    (initGrid (0, 0)).newTeam = 0 ∧
    ((mouseInput false 0 0 initGrid) (0, 0)).newTeam ≠
      (initGrid (0, 0)).newTeam := by
  have hm := mouseInput_of_locate_some 0 0 false initGrid (0, 0) locate_origin
  rw [hm]
  refine ⟨by decide, rfl, by decide⟩

/-- C8 (amended): for every in-bounds click, the mutation overwrites both
the cell's current and pending fields with the same toggled value, and
leaves every other cell untouched. -/
theorem click_overwrites_both (px py : ℚ) (ctl : Bool) (g : Grid) (p : Pos)
    (h : locate px py = some p) :
    (mouseInput ctl px py g) p =
      ⟨clickValue ctl (g p).team, clickValue ctl (g p).team⟩ ∧
    (∀ q, q ≠ p → (mouseInput ctl px py g) q = g q) := by
  rw [mouseInput_of_locate_some px py ctl g p h]
  constructor
  · simp [setCell]
  · intro q hq
    simp [setCell, hq]

/-- C8 witness: the click at pixel (0, 0) lands on cell (0, 0) and
overwrites both of its fields with the toggled value. -/
theorem click_overwrites_both_witness :
    (mouseInput false 0 0 initGrid) (0, 0) =
      ⟨clickValue false (initGrid (0, 0)).team,
        clickValue false (initGrid (0, 0)).team⟩ :=
  (click_overwrites_both 0 0 false initGrid (0, 0) locate_origin).1

/-- C9: the evaluation phase reads only `current` fields and writes only
the visited cell's `pending`, so running it in any two orders that are
permutations of each other produces identical grids; the result at a cell
depends only on whether the cell was visited. -/
theorem eval_order_independent (g : Grid) (l1 l2 : List Pos)
    (h : l1.Perm l2) :
    evalList g l1 = evalList g l2 ∧
    (∀ q, ((evalList g l1) q).team = (g q).team) ∧
    (∀ q, (evalList g l1) q =
      if q ∈ l1 then ⟨(g q).team, evalCell g q⟩ else g q) :=
  ⟨evalList_perm g h, evalList_team g l1, evalList_eq g l1⟩

/-- C9 witness: evaluating two cells of the startup grid in either order
yields the same grid. -/
theorem eval_order_independent_witness :
    evalList initGrid [(0, 0), (1, 1)] = evalList initGrid [(1, 1), (0, 0)] :=
  (eval_order_independent initGrid [(0, 0), (1, 1)] [(1, 1), (0, 0)]
    (by decide)).1

/-- C10: on every palette-valid grid (both cell fields in {0,1,2,3}), the
startup grid is valid and validity is preserved by the intended step, by
the source's changed-restricted step, and by every mouse mutation, so the
`TEAM_COLORS[cell.1]` lookups always index inside the 4-color palette. -/
theorem palette_index_safe (g : Grid) (ch : Pos → Bool) (ctl : Bool)
    (px py : ℚ) (hg : validGrid g) :
    validGrid initGrid ∧
    validGrid (step g) ∧
    validGrid (stepChanged ch g) ∧
    validGrid (mouseInput ctl px py g) ∧
    (∀ p, (g p).team < teamColors.length ∧
      (g p).newTeam < teamColors.length) :=
  ⟨validGrid_initGrid, validGrid_step hg, validGrid_stepChanged ch hg,
    validGrid_mouseInput ctl px py hg, fun p => ⟨(hg p).1, (hg p).2⟩⟩

/-- C10 witness: the startup grid is valid, and stepping it preserves
validity of every palette index. -/
theorem palette_index_safe_witness : validGrid (step initGrid) :=
  (palette_index_safe initGrid (fun _ => false) false 0 0
    validGrid_initGrid).2.1
